import Mathlib

/-!
Verification of `vale_docs_checker.py` (good-docs-linter).

Shallow embedding conventions:
* Python strings are modelled as `String` / `List Char`; all character-level
  work happens on `List Char` (`String.data`).
* Regular expressions are modelled by the character scans they perform.  Every
  regex in the source is anchored (`re.match`) and its character classes are
  pairwise disjoint at each boundary, so greedy matching without backtracking
  is exact on the inputs the code feeds them (each pattern is applied to a
  line that was already stripped where that matters; see the comments at the
  individual definitions).
* `\d`, `\w`, `\s` are modelled by their ASCII meaning (the linter output the
  parser is written for is ASCII apart from the `✖` summary glyph).
* Subprocess execution is abstracted by an oracle
  `exec : String → Except String (String × String)` mapping a full command
  line to either a failure description (`str(e)` of the raised exception) or
  the captured `(stdout, stderr)` pair.
* The `while` loop of `parse_vale_output` advances its cursor by at least one
  line per iteration, so it is embedded with fuel `lines.length`, which is
  always sufficient; the fuel-exhaustion branch is unreachable from
  `parse_vale_output`.
-/

/-- Python's whitespace class `\s` (also the set stripped by `str.strip()`),
restricted to ASCII. -/
def pyIsSpace (c : Char) : Bool :=
  c = ' ' || c = '\t' || c = '\n' || c = '\r' || c = '\x0b' || c = '\x0c'

/-- Python `str.strip()` on a character list: drop whitespace at both ends. -/
def pyStripList (l : List Char) : List Char :=
  ((l.dropWhile pyIsSpace).reverse.dropWhile pyIsSpace).reverse

/-- Python `str.strip()`. -/
def pyStrip (s : String) : String := (pyStripList s.data).asString

/-- Python `str.split('\n')` (keeps empty pieces, always returns at least one
piece). -/
def splitNl (acc : List Char) : List Char → List (List Char)
  | [] => [acc.reverse]
  | c :: cs => if c = '\n' then acc.reverse :: splitNl [] cs else splitNl (c :: acc) cs

/-- Character class `[0-9;]` of the ANSI-escape regex. -/
def isAnsiParam (c : Char) : Bool := c.isDigit || c = ';'

/-- Automaton for `re.sub(r'\x1b\[[0-9;]*[a-zA-Z]|\x1b\[\d+m', '', text)`.
The second alternative is subsumed by the first, so a match is exactly
ESC `[` `[0-9;]*` letter.  State `some buf` means the scanner is inside a
candidate sequence whose characters (reversed) are `buf`; if the candidate
fails, `buf` is emitted verbatim and scanning resumes at the offending
character (which can itself start a new candidate). -/
def ansiGo : Option (List Char) → List Char → List Char
  | none, [] => []
  | none, '\x1b' :: '[' :: cs2 => ansiGo (some ['[', '\x1b']) cs2
  | none, c :: cs => c :: ansiGo none cs
  | some buf, [] => buf.reverse
  | some buf, '\x1b' :: '[' :: cs2 => buf.reverse ++ ansiGo (some ['[', '\x1b']) cs2
  | some buf, c :: cs =>
    if isAnsiParam c then ansiGo (some (c :: buf)) cs
    else if c.isAlpha then ansiGo none cs
    else buf.reverse ++ c :: ansiGo none cs

/-- `strip_ansi_codes` of the source, on a character list. -/
def strip_ansi_codes (l : List Char) : List Char := ansiGo none l

/-- Word character class `\w` (ASCII). -/
def isWordChar (c : Char) : Bool := c.isAlphanum || c = '_'

/-- Does a raw line match `re.match(r'^\d+:\d+', line)` (the continuation
stopper of the parser's look-ahead loop)?  Note there is no leading `\s*`
here, so an indented location marker does not stop the look-ahead. -/
def startsLocMarker (l : List Char) : Bool :=
  !(l.takeWhile Char.isDigit).isEmpty &&
    (match l.dropWhile Char.isDigit with
     | ':' :: r => !(r.takeWhile Char.isDigit).isEmpty
     | _ => false)

/-- `line.startswith('✖')`. -/
def startsGlyph : List Char → Bool
  | [] => false
  | c :: _ => c = '✖'

/-- Consume a nonempty maximal run of characters satisfying `p` (the shape
`p+` of an anchored greedy regex piece), returning the run and the rest. -/
def takeRun (p : Char → Bool) (l : List Char) : Option (List Char × List Char) :=
  if (l.takeWhile p).isEmpty then none else some (l.takeWhile p, l.dropWhile p)

/-- `re.match(r'^\s*(\d+):(\d+)\s+(\w+)\s+(.+)$', line)`, returning the four
captured groups.  The source applies this to `line.strip()`, on which the
greedy left-to-right scan below is exactly the regex (all adjacent classes
are disjoint and a stripped line cannot end in whitespace, so no
backtracking can occur). -/
def matchLocation (l : List Char) : Option (List Char × List Char × List Char × List Char) :=
  match takeRun Char.isDigit (l.dropWhile pyIsSpace) with
  | none => none
  | some (d1, r1) =>
    match r1 with
    | ':' :: r2 =>
      match takeRun Char.isDigit r2 with
      | none => none
      | some (d2, r3) =>
        match takeRun pyIsSpace r3 with
        | none => none
        | some (_, r4) =>
          match takeRun isWordChar r4 with
          | none => none
          | some (w, r5) =>
            match takeRun pyIsSpace r5 with
            | none => none
            | some (_, r6) => if r6.isEmpty then none else some (d1, d2, w, r6)
    | _ => none

/-- Scanner for `re.split(r'\s{2,}', rest)`: pieces are separated by maximal
whitespace runs of length at least two.  Mode `true` means the scanner is
inside a separator run; `acc` holds the current piece reversed. -/
def splitWs2Go : Bool → List Char → List Char → List (List Char)
  | false, acc, [] => [acc.reverse]
  | false, acc, [c] => [(c :: acc).reverse]
  | false, acc, c :: c2 :: cs2 =>
    if pyIsSpace c && pyIsSpace c2 then acc.reverse :: splitWs2Go true [] cs2
    else splitWs2Go false (c :: acc) (c2 :: cs2)
  | true, acc, [] => [acc.reverse]
  | true, acc, c :: cs =>
    if pyIsSpace c then splitWs2Go true acc cs
    else splitWs2Go false [c] cs

/-- `re.split(r'\s{2,}', l)`. -/
def splitWs2 (l : List Char) : List (List Char) := splitWs2Go false [] l

/-- Python `' '.join(parts)`. -/
def joinSpace : List (List Char) → List Char
  | [] => []
  | [p] => p
  | p :: ps => p ++ ' ' :: joinSpace ps

/-- Python `int()` of a nonempty digit string. -/
def digitsToNat (l : List Char) : Nat :=
  l.foldl (fun n c => n * 10 + (c.toNat - '0'.toNat)) 0

/-- One row of the DataFrame built by `parse_vale_output`. -/
structure IssueRecord where
  filename : Option String
  line : Nat
  col : Nat
  error_type : String
  error_msg : String
  check_name : String
deriving DecidableEq

/-- The look-ahead loop of `parse_vale_output` (source lines 143-152):
starting after a finding header, consume lines while each is non-blank, does
not start with `digits:digits`, and does not start with `✖`; append each
line's text (stripped, then with leading whitespace removed again by
`re.sub(r'^\s+', '', ...)`) to the message, space-joined.  Returns the grown
message and the lines left for the cursor. -/
def consumeCont : List (List Char) → List Char → List Char × List (List Char)
  | [], acc => (acc, [])
  | l :: rest, acc =>
    if !(pyStripList l).isEmpty && !startsLocMarker l && !startsGlyph l then
      let t := (pyStripList l).dropWhile pyIsSpace
      consumeCont rest (if t.isEmpty then acc else acc ++ ' ' :: t)
    else (acc, l :: rest)

/-- The main `while i < len(lines)` scan of `parse_vale_output`, with fuel.
The source loop advances `i` by at least one per iteration, so fuel equal to
the number of lines (what `parse_vale_output` passes) never runs out. -/
def scanGo (fname : Option String) : Nat → List (List Char) → List IssueRecord
  | 0, _ => []
  | _ + 1, [] => []
  | fuel + 1, l :: rest =>
    let line := pyStripList l
    if line.isEmpty || startsGlyph line then scanGo fname fuel rest
    else
      match matchLocation line with
      | none => scanGo fname fuel rest
      | some (d1, d2, et, restStr) =>
        let parts := splitWs2 restStr
        if 2 ≤ parts.length then
          let m := pyStripList (joinSpace parts.dropLast)
          ⟨fname, digitsToNat d1, digitsToNat d2, et.asString,
            (pyStripList (consumeCont rest m).1).asString,
            (pyStripList (parts.getLastD [])).asString⟩
            :: scanGo fname fuel (consumeCont rest m).2
        else scanGo fname fuel rest

/-- `line.endswith(('.mdx', '.md'))`. -/
def endsDocExt (l : List Char) : Bool :=
  List.isSuffixOf ".mdx".data l || List.isSuffixOf ".md".data l

/-- Python truthiness of the `filename` argument (`None` and `""` are falsy). -/
def filenameFalsy : Option String → Bool
  | none => true
  | some s => s.isEmpty

/-- `[strip_ansi_codes(line) for line in stdout.strip().split('\n')]`. -/
def valeLines (stdout : String) : List (List Char) :=
  (splitNl [] (pyStripList stdout.data)).map strip_ansi_codes

/-- Source lines 108-110: adopt the first line (stripped) as the filename when
none was supplied and it ends in a documentation extension. -/
def resolveFilename (filename : Option String) (lines : List (List Char)) : Option String :=
  match lines with
  | [] => filename
  | l0 :: _ =>
    if filenameFalsy filename && endsDocExt (pyStripList l0) then some (pyStripList l0).asString
    else filename

/-- Source line 113: `start_idx = 1 if len(lines) > 1 and
(lines[0].endswith('.mdx') or lines[0].endswith('.md')) else 0`, expressed as
the list of lines the scan starts from.  Note this tests the raw first line
and does not depend on whether a filename was supplied. -/
def startLines : List (List Char) → List (List Char)
  | [] => []
  | l0 :: rest => if !rest.isEmpty && endsDocExt l0 then rest else l0 :: rest

/-- `parse_vale_output` of the source: rows of the returned DataFrame in
order. -/
def parse_vale_output (stdout : String) (filename : Option String) : List IssueRecord :=
  let lines := valeLines stdout
  scanGo (resolveFilename filename lines) (startLines lines).length (startLines lines)

/-- Character class `[()]` of the escaping regex. -/
def isParen (c : Char) : Bool := c == '(' || c == ')'

/-- `re.sub(r'[()]', lambda m: f'\\{m.group(0)}', file_path)`: prefix each
parenthesis with a backslash, leave every other character alone. -/
def escapeParensL : List Char → List Char
  | [] => []
  | c :: cs => if isParen c then '\\' :: c :: escapeParensL cs else c :: escapeParensL cs

/-- Parenthesis escaping on strings. -/
def escapeParens (s : String) : String := (escapeParensL s.data).asString

/-- `formatted_command = f"{command} {file_path}"` (source line 31): the path
is appended after a single space, never substituted into a placeholder. -/
def formattedCommand (command path : String) : String :=
  command ++ " " ++ escapeParens path

/-- Inverse scan used to state that escaping alters nothing but parentheses:
drop a backslash that immediately precedes a parenthesis. -/
def unescapeParensL : List Char → List Char
  | [] => []
  | c :: cs =>
    if c = '\\' then
      match cs with
      | [] => ['\\']
      | c2 :: cs2 =>
        if isParen c2 then c2 :: unescapeParensL cs2
        else '\\' :: unescapeParensL (c2 :: cs2)
    else c :: unescapeParensL cs

/-- Check that every parenthesis in a character list is immediately preceded
by a backslash. -/
def parensSlashed : List Char → Bool
  | [] => true
  | c :: cs =>
    if c = '\\' then
      match cs with
      | [] => true
      | c2 :: cs2 =>
        if isParen c2 then parensSlashed cs2 else parensSlashed (c2 :: cs2)
    else !isParen c && parensSlashed cs

/-- One iteration of the loop body of `run_command_for_files` (source lines
26-50).  `exec` abstracts `subprocess.Popen` + `communicate`: it maps the
full command line either to the captured `(stdout, stderr)` texts or to the
description `str(e)` of a raised exception.  The tuple holds the (escaped)
path, `stdout.strip()` and `stderr.strip()`; on failure the path, `""` and
the description. -/
def runOne (exec : String → Except String (String × String)) (command path : String) :
    String × String × String :=
  match exec (formattedCommand command path) with
  | .ok (out, err) => (escapeParens path, pyStrip out, pyStrip err)
  | .error e => (escapeParens path, "", e)

/-- `run_command_for_files` of the source. -/
def run_command_for_files (exec : String → Except String (String × String))
    (paths : List String) (command : String) : List (String × String × String) :=
  match paths with
  | [] => []
  | p :: rest => runOne exec command p :: run_command_for_files exec rest command

/-- The `(error_type, check_name)` projection of the record sequence (the two
grouping columns of `final_df.groupby(['error_type', 'check_name'])`). -/
def issuePairs (rs : List IssueRecord) : List (String × String) :=
  rs.map fun r => (r.error_type, r.check_name)

/-- Descending-count order of `sort_values('count', ascending=False)`. -/
def countGe (a b : (String × String) × Nat) : Prop := b.2 ≤ a.2

instance : DecidableRel countGe := fun a b => by unfold countGe; infer_instance
instance : IsTotal ((String × String) × Nat) countGe :=
  ⟨fun a b => Nat.le_total b.2 a.2⟩

instance : IsTrans ((String × String) × Nat) countGe :=
  ⟨fun _ _ _ h1 h2 => Nat.le_trans h2 h1⟩

/-- The Report Aggregator (source lines 234-235):
`final_df.groupby(['error_type','check_name']).size().reset_index(name='count')`
followed by `sort_values('count', ascending=False)`: one row per distinct
`(error_type, check_name)` pair with its number of occurrences, ordered by
count descending.  The relative order of groups with equal counts is not part
of the contract (the source's quicksort is unstable and only the count is
sorted on); this model takes group keys in first-occurrence order and sorts
stably by descending count. -/
def errorReport (rs : List IssueRecord) : List ((String × String) × Nat) :=
  List.insertionSort countGe
    ((issuePairs rs).dedup.map fun p => (p, (issuePairs rs).count p))

/-- Externally observable steps of `main` (source lines 184-239), in order.
IO side effects are abstracted to this action trace;
`buildFileTree` and `collectFiles` are the two calls that invoke the File
Collector (`create_file_tree` calls `collect_files` internally). -/
inductive MainAction where
  | reportInvalidDir
  | buildFileTree
  | collectFiles
  | countTotal
  | runCommands
deriving DecidableEq

/-- Control flow of `main`: `if not directory.exists() or not
directory.is_dir(): rprint(error); return` (a plain early return, no
exception), and otherwise tree display, collection, counting, and — when a
command was given — the run/parse/aggregate step. -/
def mainFlow (dirExists dirIsDir : Bool) (command : Option String) : List MainAction :=
  if !dirExists || !dirIsDir then [MainAction.reportInvalidDir]
  else
    [MainAction.buildFileTree, MainAction.collectFiles, MainAction.countTotal] ++
      (if command.isSome then [MainAction.runCommands] else [])

/-! ## Supporting lemmas -/

theorem run_command_get (exec : String → Except String (String × String)) (command : String) :
    ∀ (paths : List String) (i : Nat),
      (run_command_for_files exec paths command).get? i = (paths.get? i).map (runOne exec command)
  | [], _ => by simp [run_command_for_files]
  | p :: rest, 0 => by simp [run_command_for_files]
  | p :: rest, i + 1 => by
    simp only [run_command_for_files, List.get?_cons_succ]
    exact run_command_get exec command rest i

theorem run_command_length (exec : String → Except String (String × String)) (command : String) :
    ∀ paths : List String,
      (run_command_for_files exec paths command).length = paths.length
  | [] => rfl
  | _ :: rest => by
    simp only [run_command_for_files, List.length_cons]
    exact congrArg (· + 1) (run_command_length exec command rest)

theorem escapeParensL_head_not_paren :
    ∀ (l : List Char) (x : Char) (xs : List Char),
      escapeParensL l = x :: xs → isParen x = false
  | [], x, xs => by simp [escapeParensL]
  | c :: cs, x, xs => by
    simp only [escapeParensL]
    split
    · intro h
      injection h with h1 _
      rw [← h1]
      decide
    · next hc =>
      intro h
      injection h with h1 _
      rw [← h1]
      simpa using hc

theorem escapeParensL_eq_nil : ∀ l : List Char, escapeParensL l = [] → l = []
  | [], _ => rfl
  | c :: cs, h => by
    simp only [escapeParensL] at h
    split at h <;> simp at h

theorem unescapeParensL_cons_ne (c : Char) (l : List Char) (h : ¬ c = '\\') :
    unescapeParensL (c :: l) = c :: unescapeParensL l := by
  cases l with
  | nil => simp [unescapeParensL, h]
  | cons c2 cs2 => simp [unescapeParensL, h]

theorem unescapeParensL_bs_cons (x : Char) (xs : List Char) (hx : isParen x = false) :
    unescapeParensL ('\\' :: x :: xs) = '\\' :: unescapeParensL (x :: xs) := by
  simp [unescapeParensL, hx]

theorem unescapeParensL_bs_paren (x : Char) (xs : List Char) (hx : isParen x = true) :
    unescapeParensL ('\\' :: x :: xs) = x :: unescapeParensL xs := by
  simp [unescapeParensL, hx]

theorem unescape_escapeParensL : ∀ l : List Char, unescapeParensL (escapeParensL l) = l
  | [] => rfl
  | c :: cs => by
    cases hc : isParen c with
    | true =>
      simp only [escapeParensL, hc, if_true]
      rw [unescapeParensL_bs_paren c (escapeParensL cs) hc, unescape_escapeParensL cs]
    | false =>
      have hcond : ¬ (isParen c = true) := by simp [hc]
      simp only [escapeParensL, if_neg hcond]
      by_cases hbs : c = '\\'
      · subst hbs
        cases hcs : escapeParensL cs with
        | nil =>
          rw [escapeParensL_eq_nil cs hcs]
          simp [unescapeParensL]
        | cons x xs =>
          rw [unescapeParensL_bs_cons x xs (escapeParensL_head_not_paren cs x xs hcs),
            ← hcs, unescape_escapeParensL cs]
      · rw [unescapeParensL_cons_ne c _ hbs, unescape_escapeParensL cs]

theorem parensSlashed_cons_ne (c : Char) (l : List Char) (hbs : ¬ c = '\\')
    (hp : isParen c = false) : parensSlashed (c :: l) = parensSlashed l := by
  cases l with
  | nil => simp [parensSlashed, hbs, hp]
  | cons c2 cs2 => simp [parensSlashed, hbs, hp]

theorem parensSlashed_bs_cons (x : Char) (xs : List Char) (hx : isParen x = false) :
    parensSlashed ('\\' :: x :: xs) = parensSlashed (x :: xs) := by
  simp [parensSlashed, hx]

theorem parensSlashed_bs_paren (x : Char) (xs : List Char) (hx : isParen x = true) :
    parensSlashed ('\\' :: x :: xs) = parensSlashed xs := by
  simp [parensSlashed, hx]

theorem parensSlashed_escape : ∀ l : List Char, parensSlashed (escapeParensL l) = true
  | [] => rfl
  | c :: cs => by
    cases hc : isParen c with
    | true =>
      simp only [escapeParensL, hc, if_true]
      rw [parensSlashed_bs_paren c (escapeParensL cs) hc]
      exact parensSlashed_escape cs
    | false =>
      have hcond : ¬ (isParen c = true) := by simp [hc]
      simp only [escapeParensL, if_neg hcond]
      by_cases hbs : c = '\\'
      · subst hbs
        cases hcs : escapeParensL cs with
        | nil => simp [parensSlashed]
        | cons x xs =>
          rw [parensSlashed_bs_cons x xs (escapeParensL_head_not_paren cs x xs hcs), ← hcs]
          exact parensSlashed_escape cs
      · rw [parensSlashed_cons_ne c _ hbs hc]
        exact parensSlashed_escape cs

theorem escapeParensL_no_paren (l : List Char) (h : ∀ c ∈ l, isParen c = false) :
    escapeParensL l = l := by
  induction l with
  | nil => rfl
  | cons c cs ih =>
    have hc : ¬ (isParen c = true) := by simp [h c (List.mem_cons_self c cs)]
    simp only [escapeParensL, if_neg hc]
    rw [ih fun x hx => h x (List.mem_cons_of_mem c hx)]

/-! ## Claims -/

/-- Claim C1: for the single-line input `"3:10  error  Some message  RuleName"`
and no externally supplied filename, `parse_vale_output` returns exactly one
IssueRecord, with line 3, column 10, error type `"error"`, message
`"Some message"` and check name `"RuleName"`. -/
theorem claim1_round_trip_single_header :
    parse_vale_output "3:10  error  Some message  RuleName" none =
      [⟨none, 3, 10, "error", "Some message", "RuleName"⟩] := by
  decide

/-- Claim C10: a line that would itself match the finding-header pattern
(`matchLocation` accepts its stripped form) but has leading whitespace before
its `digits:digits` marker — so the continuation stopper `^\d+:\d+` does not
fire on it — is, directly after a parsed header, consumed as continuation
text: its text is appended to the preceding record's message and it produces
no IssueRecord of its own. -/
theorem claim10_indented_marker_is_continuation :
    matchLocation (pyStripList "  4:5  warning  Second msg  R2".data) ≠ none ∧
    startsLocMarker "  4:5  warning  Second msg  R2".data = false ∧
    parse_vale_output "3:10  error  First msg  R1\n  4:5  warning  Second msg  R2" none =
      [⟨none, 3, 10, "error", "First msg 4:5  warning  Second msg  R2", "R1"⟩] := by
  refine ⟨by decide, by decide, by decide⟩

/-- Claim C9: when the directory argument does not name an existing directory,
`main` reports the error and stops: the action trace is exactly the error
report, and neither the Collector (`create_file_tree` / `collect_files`) nor
the Command Runner is ever invoked. -/
theorem claim9_invalid_directory (dirExists dirIsDir : Bool) (command : Option String)
    (h : dirExists = false ∨ dirIsDir = false) :
    mainFlow dirExists dirIsDir command = [MainAction.reportInvalidDir] ∧
    MainAction.buildFileTree ∉ mainFlow dirExists dirIsDir command ∧
    MainAction.collectFiles ∉ mainFlow dirExists dirIsDir command ∧
    MainAction.runCommands ∉ mainFlow dirExists dirIsDir command := by
  rcases h with h | h <;> subst h <;> simp [mainFlow]

/-- Witness for `claim9_invalid_directory` at a concrete input. -/
theorem claim9_invalid_directory_witness :
    mainFlow false true (some "vale") = [MainAction.reportInvalidDir] ∧
    MainAction.buildFileTree ∉ mainFlow false true (some "vale") ∧
    MainAction.collectFiles ∉ mainFlow false true (some "vale") ∧
    MainAction.runCommands ∉ mainFlow false true (some "vale") :=
  claim9_invalid_directory false true (some "vale") (Or.inl rfl)

/-- Claim C5: the Command Runner produces exactly one result tuple per input
file, in input order; the result for each file is a function of that file
alone, and when the subprocess oracle fails for a file the tuple carries an
empty stdout and the failure description as stderr, while every other file is
still processed (its result is unaffected). -/
theorem claim5_runner_per_file (exec : String → Except String (String × String))
    (paths : List String) (command : String) :
    (run_command_for_files exec paths command).length = paths.length ∧
    (∀ i p, paths.get? i = some p →
      (run_command_for_files exec paths command).get? i = some (runOne exec command p)) ∧
    (∀ i p e, paths.get? i = some p →
      exec (formattedCommand command p) = Except.error e →
      (run_command_for_files exec paths command).get? i = some (escapeParens p, "", e)) := by
  refine ⟨run_command_length exec command paths, ?_, ?_⟩
  · intro i p hp
    rw [run_command_get exec command paths i, hp, Option.map_some']
  · intro i p e hp he
    rw [run_command_get exec command paths i, hp, Option.map_some']
    simp [runOne, he]

/-- Witness for `claim5_runner_per_file`: a two-file batch whose oracle always
fails still yields a result for the second file, of the failure shape. -/
theorem claim5_runner_per_file_witness :
    (run_command_for_files (fun _ => Except.error "boom") ["a", "b"] "vale").get? 1 =
      some ("b", "", "boom") := by
  have h := (claim5_runner_per_file (fun _ => Except.error "boom") ["a", "b"] "vale").2.2
    1 "b" "boom" rfl rfl
  exact h.trans (by decide)

/-- Claim C6: the full command line is the template, then a single space, then
the escaped path (no placeholder substitution: a literal `{filepath}` in the
template stays in place); escaping prefixes each parenthesis with a backslash
and alters no other character (it is undone by dropping those backslashes,
it is the identity on parenthesis-free paths, and in its output every
parenthesis is immediately preceded by a backslash). -/
theorem claim6_escape_and_append :
    (∀ path, formattedCommand "vale \x7bfilepath\x7d" path =
      "vale \x7bfilepath\x7d " ++ escapeParens path) ∧
    (∀ l : List Char, (∀ c ∈ l, isParen c = false) → escapeParensL l = l) ∧
    (∀ l : List Char, unescapeParensL (escapeParensL l) = l) ∧
    (∀ l : List Char, parensSlashed (escapeParensL l) = true) := by
  refine ⟨?_, escapeParensL_no_paren, unescape_escapeParensL, parensSlashed_escape⟩
  intro path
  show "vale \x7bfilepath\x7d" ++ " " ++ escapeParens path = _
  exact congrArg (· ++ escapeParens path) (by decide)

/-- Witness for `claim6_escape_and_append`: the identity part at a concrete
parenthesis-free path. -/
theorem claim6_escape_and_append_witness :
    escapeParensL "doc.md".data = "doc.md".data :=
  claim6_escape_and_append.2.1 "doc.md".data (by decide)


theorem scanGo_eq_nil_of_no_match :
    ∀ (fuel : Nat) (fname : Option String) (ls : List (List Char)),
      (∀ l ∈ ls, matchLocation (pyStripList l) = none) → scanGo fname fuel ls = []
  | 0, _, _, _ => rfl
  | _ + 1, _, [], _ => rfl
  | fuel + 1, fname, l :: rest, h => by
    have hrest := fun x hx => h x (List.mem_cons_of_mem l hx)
    have hl := h l (List.mem_cons_self l rest)
    simp only [scanGo, hl, ite_self]
    exact scanGo_eq_nil_of_no_match fuel fname rest hrest

theorem startLines_mem : ∀ (ls : List (List Char)) (l : List Char), l ∈ startLines ls → l ∈ ls
  | [], l, h => absurd h (List.not_mem_nil l)
  | l0 :: rest, l, h => by
    simp only [startLines] at h
    split at h
    · exact List.mem_cons_of_mem l0 h
    · exact h

/-- Claim C7: the grouped error report has, for each `(error_type, check_name)`
pair occurring in the record sequence, exactly one row carrying the number of
records with that pair (and no other rows), the rows are ordered by count
descending, and on the concrete three-record example the counts are 2 and 1
with the count-2 group first. -/
theorem claim7_error_report :
    (∀ rs p n, (p, n) ∈ errorReport rs →
      p ∈ issuePairs rs ∧ n = (issuePairs rs).count p) ∧
    (∀ rs p, p ∈ issuePairs rs → (p, (issuePairs rs).count p) ∈ errorReport rs) ∧
    (∀ rs, (errorReport rs).Sorted countGe) ∧
    errorReport [⟨none, 1, 1, "error", "m1", "R1"⟩, ⟨none, 2, 2, "error", "m2", "R1"⟩,
        ⟨none, 3, 3, "warning", "m3", "R2"⟩] =
      [(("error", "R1"), 2), (("warning", "R2"), 1)] := by
  refine ⟨?_, ?_, ?_, by decide⟩
  · intro rs p n h
    have h1 : (p, n) ∈ (issuePairs rs).dedup.map fun q => (q, (issuePairs rs).count q) :=
      (List.perm_insertionSort countGe _).mem_iff.mp h
    obtain ⟨q, hq, heq⟩ := List.mem_map.mp h1
    cases heq
    exact ⟨List.mem_dedup.mp hq, rfl⟩
  · intro rs p hp
    refine (List.perm_insertionSort countGe _).mem_iff.mpr ?_
    exact List.mem_map_of_mem _ (List.mem_dedup.mpr hp)
  · intro rs
    exact List.sorted_insertionSort countGe _

/-- Witness for `claim7_error_report`: membership direction at a concrete
record list. -/
theorem claim7_error_report_witness :
    (("error", "R1"),
        (issuePairs [⟨none, 1, 1, "error", "m1", "R1"⟩]).count ("error", "R1")) ∈
      errorReport [⟨none, 1, 1, "error", "m1", "R1"⟩] :=
  claim7_error_report.2.1 [⟨none, 1, 1, "error", "m1", "R1"⟩] ("error", "R1") (by decide)

/-- Claim C8: the Output Parser applied to empty standard-output text, or to
any text none of whose (preprocessed) lines matches the finding-header
pattern, returns an empty record sequence (it is a total function, so no
error is possible). -/
theorem claim8_empty_or_headerless_output :
    (∀ fname, parse_vale_output "" fname = []) ∧
    (∀ stdout fname,
      (∀ l ∈ valeLines stdout, matchLocation (pyStripList l) = none) →
      parse_vale_output stdout fname = []) := by
  constructor
  · intro fname
    show scanGo _ _ _ = []
    exact scanGo_eq_nil_of_no_match _ _ _ (by decide)
  · intro stdout fname h
    show scanGo _ _ _ = []
    exact scanGo_eq_nil_of_no_match _ _ _
      (fun l hl => h l (startLines_mem (valeLines stdout) l hl))

/-- Witness for `claim8_empty_or_headerless_output` on concrete headerless
text. -/
theorem claim8_empty_or_headerless_output_witness :
    parse_vale_output "just some text\nno findings here" none = [] :=
  claim8_empty_or_headerless_output.2 "just some text\nno findings here" none (by decide)

theorem consumeCont_mem :
    ∀ (ls : List (List Char)) (acc : List Char) (x : List Char),
      x ∈ (consumeCont ls acc).2 → x ∈ ls
  | [], acc, x, h => by simp [consumeCont] at h
  | l :: rest, acc, x, h => by
    simp only [consumeCont] at h
    split at h
    · exact List.mem_cons_of_mem l (consumeCont_mem rest _ x h)
    · simpa using h

theorem scanGo_mem :
    ∀ (fuel : Nat) (fname : Option String) (ls : List (List Char)) (r : IssueRecord),
      r ∈ scanGo fname fuel ls →
      ∃ l ∈ ls, ∃ d1 d2 et restStr,
        matchLocation (pyStripList l) = some (d1, d2, et, restStr) ∧
        2 ≤ (splitWs2 restStr).length ∧
        r.line = digitsToNat d1 ∧ r.col = digitsToNat d2 ∧ r.error_type = et.asString
  | 0, _, _, r, h => absurd h (List.not_mem_nil r)
  | _ + 1, _, [], r, h => absurd h (List.not_mem_nil r)
  | fuel + 1, fname, l :: rest, r, h => by
    simp only [scanGo] at h
    split at h
    · obtain ⟨l', hl', hrest⟩ := scanGo_mem fuel fname rest r h
      exact ⟨l', List.mem_cons_of_mem l hl', hrest⟩
    · split at h
      · obtain ⟨l', hl', hrest⟩ := scanGo_mem fuel fname rest r h
        exact ⟨l', List.mem_cons_of_mem l hl', hrest⟩
      · next d1 d2 et restStr heq =>
        split at h
        · next hlen =>
          rcases List.mem_cons.mp h with hr | hr
          · subst hr
            exact ⟨l, List.mem_cons_self l rest, d1, d2, et, restStr, heq, hlen, rfl, rfl, rfl⟩
          · obtain ⟨l', hl', hrest⟩ := scanGo_mem fuel fname _ r hr
            exact ⟨l', List.mem_cons_of_mem l (consumeCont_mem rest _ l' hl'), hrest⟩
        · obtain ⟨l', hl', hrest⟩ := scanGo_mem fuel fname rest r h
          exact ⟨l', List.mem_cons_of_mem l hl', hrest⟩

/-- Claim C3 (amended): the parser skips its first line before
finding-scanning if and only if the input has more than one line and the raw
first line ends with a recognized documentation extension — regardless of
whether a filename was supplied externally (first two conjuncts, for every
`fname`); and it adopts the first line as the filename only when no truthy
filename was supplied externally *and* the trimmed first line ends in a
recognized documentation extension (last three conjuncts: a truthy supplied
filename is kept, a first line without the extension never replaces the
filename, and adoption happens exactly in the remaining case). -/
theorem claim3_first_line_skip (stdout : String) (fname : Option String)
    (h : List Char) (t : List (List Char))
    (hl : valeLines stdout = h :: t) :
    ((t ≠ [] ∧ endsDocExt h = true) →
      parse_vale_output stdout fname =
        scanGo (resolveFilename fname (h :: t)) t.length t) ∧
    ((t = [] ∨ endsDocExt h = false) →
      parse_vale_output stdout fname =
        scanGo (resolveFilename fname (h :: t)) (h :: t).length (h :: t)) ∧
    (filenameFalsy fname = false → resolveFilename fname (h :: t) = fname) ∧
    (endsDocExt (pyStripList h) = false → resolveFilename fname (h :: t) = fname) ∧
    (filenameFalsy fname = true ∧ endsDocExt (pyStripList h) = true →
      resolveFilename fname (h :: t) = some (pyStripList h).asString) := by
  refine ⟨?_, ?_, ?_, ?_, ?_⟩
  · rintro ⟨ht, hext⟩
    have hte : t.isEmpty = false := by
      cases t with
      | nil => exact absurd rfl ht
      | cons a b => rfl
    have hstart : startLines (valeLines stdout) = t := by
      rw [hl]
      simp [startLines, hext, hte]
    show scanGo (resolveFilename fname (valeLines stdout))
      (startLines (valeLines stdout)).length (startLines (valeLines stdout)) = _
    rw [hstart, hl]
  · intro hcase
    have hstart : startLines (valeLines stdout) = h :: t := by
      rw [hl]
      rcases hcase with hnil | hext
      · subst hnil
        simp [startLines]
      · simp [startLines, hext]
    show scanGo (resolveFilename fname (valeLines stdout))
      (startLines (valeLines stdout)).length (startLines (valeLines stdout)) = _
    rw [hstart, hl]
  · intro hf
    simp [resolveFilename, hf]
  · intro hext
    simp [resolveFilename, hext]
  · rintro ⟨hf, hext⟩
    simp [resolveFilename, hf, hext]

/-- Counterexample to claim C3 as stated: with an externally supplied
filename, parsing does not start from the first line — the first line (a
perfectly parseable finding header, as the first conjunct shows) is still
skipped because it ends in `.md`, so only the second finding is reported. -/
theorem claim3_cex_external_filename_still_skips :
    matchLocation (pyStripList "1:2  error  Bad name  x.md".data) ≠ none ∧
    parse_vale_output "1:2  error  Bad name  x.md\n3:4  warning  Msg two  R2" (some "file.md") =
      [⟨some "file.md", 3, 4, "warning", "Msg two", "R2"⟩] :=
  ⟨by decide, by decide⟩

/-- Witness for `claim3_first_line_skip` at concrete inputs: the skip with a
supplied truthy filename, the kept supplied filename, and the adoption of the
first line when no filename was supplied. -/
theorem claim3_first_line_skip_witness :
    (parse_vale_output "a.md\n1:2  error  Msg text  R1" (some "ext.md") =
      scanGo (resolveFilename (some "ext.md")
          ["a.md".data, "1:2  error  Msg text  R1".data])
        [("1:2  error  Msg text  R1").data].length
        [("1:2  error  Msg text  R1").data]) ∧
    resolveFilename (some "ext.md") ["a.md".data, "1:2  error  Msg text  R1".data] =
      some "ext.md" ∧
    resolveFilename none ["a.md".data, "x".data] = some "a.md" := by
  have h1 := claim3_first_line_skip "a.md\n1:2  error  Msg text  R1" (some "ext.md")
    "a.md".data ["1:2  error  Msg text  R1".data] (by decide)
  have h2 := claim3_first_line_skip "a.md\nx" none "a.md".data ["x".data] (by decide)
  exact ⟨h1.1 ⟨by decide, by decide⟩, h1.2.2.1 rfl,
    (h2.2.2.2.2 ⟨rfl, by decide⟩).trans (by decide)⟩

/-- Claim C4 (amended): every IssueRecord the parser produces takes its line
and column as the decimal values of the digit strings of a `<int>:<int>`
location marker found (with a `\w+` severity token and a two-segment rest) on
one of the input's lines; the values are nonnegative integers, but not
necessarily positive — `0:0` is accepted, see the counterexample. -/
theorem claim4_marker_invariant (stdout : String) (fname : Option String) (r : IssueRecord)
    (hr : r ∈ parse_vale_output stdout fname) :
    ∃ l ∈ valeLines stdout, ∃ d1 d2 et restStr,
      matchLocation (pyStripList l) = some (d1, d2, et, restStr) ∧
      2 ≤ (splitWs2 restStr).length ∧
      r.line = digitsToNat d1 ∧ r.col = digitsToNat d2 ∧ r.error_type = et.asString := by
  have hr' : r ∈ scanGo (resolveFilename fname (valeLines stdout))
      (startLines (valeLines stdout)).length (startLines (valeLines stdout)) := hr
  obtain ⟨l, hl, hrest⟩ := scanGo_mem _ _ _ r hr'
  exact ⟨l, startLines_mem (valeLines stdout) l hl, hrest⟩

/-- Counterexample to claim C4 as stated: the marker `0:0` yields a record
whose line and column are 0, so "positive (1-based)" fails. -/
theorem claim4_cex_zero_line_col :
    ¬ ∀ r ∈ parse_vale_output "0:0  error  Some msg  Rule" none, 0 < r.line ∧ 0 < r.col := by
  decide

/-- Witness for `claim4_marker_invariant` at a concrete input and record. -/
theorem claim4_marker_invariant_witness :
    ∃ l ∈ valeLines "3:10  error  Some message  RuleName",
      ∃ d1 d2 et restStr,
        matchLocation (pyStripList l) = some (d1, d2, et, restStr) ∧
        2 ≤ (splitWs2 restStr).length ∧
        (IssueRecord.mk none 3 10 "error" "Some message" "RuleName").line = digitsToNat d1 ∧
        (IssueRecord.mk none 3 10 "error" "Some message" "RuleName").col = digitsToNat d2 ∧
        (IssueRecord.mk none 3 10 "error" "Some message" "RuleName").error_type = et.asString :=
  claim4_marker_invariant "3:10  error  Some message  RuleName" none
    ⟨none, 3, 10, "error", "Some message", "RuleName"⟩ (by decide)

theorem dropWhile_head_false :
    ∀ (p : Char → Bool) (l : List Char) (c : Char) (cs : List Char),
      l.dropWhile p = c :: cs → p c = false
  | p, [], c, cs, h => by simp at h
  | p, a :: l, c, cs, h => by
    rw [List.dropWhile_cons] at h
    split at h
    · exact dropWhile_head_false p l c cs h
    · next ha =>
      injection h with h1 _
      subst h1
      simpa using ha

theorem takeRun_some_inv (p : Char → Bool) (l a b : List Char)
    (h : takeRun p l = some (a, b)) : a = l.takeWhile p ∧ b = l.dropWhile p := by
  simp only [takeRun] at h
  split at h
  · exact absurd h (by simp)
  · injection h with h1
    injection h1 with h2 h3
    exact ⟨h2.symm, h3.symm⟩

theorem matchLocation_rest_head (l d1 d2 et restStr : List Char)
    (h : matchLocation l = some (d1, d2, et, restStr)) :
    ∃ c cs, restStr = c :: cs ∧ pyIsSpace c = false := by
  simp only [matchLocation] at h
  split at h
  · exact absurd h (by simp)
  · split at h
    · split at h
      · exact absurd h (by simp)
      · split at h
        · exact absurd h (by simp)
        · split at h
          · exact absurd h (by simp)
          · split at h
            · exact absurd h (by simp)
            · rename_i r5 heqw xL6 s2 r6 heq5
              split at h
              · exact absurd h (by simp)
              · rename_i hne
                injection h with h1
                injection h1 with h2 h3
                injection h3 with h4 h5
                injection h5 with h6 h7
                obtain ⟨-, hr6⟩ := takeRun_some_inv pyIsSpace r5 s2 r6 heq5
                have hr : restStr = r6 := h7.symm
                subst hr
                have hrne : restStr ≠ [] := by
                  intro hnil
                  rw [hnil] at hne
                  exact hne rfl
                obtain ⟨c, cs, hcons⟩ := List.exists_cons_of_ne_nil hrne
                refine ⟨c, cs, hcons, ?_⟩
                exact dropWhile_head_false pyIsSpace r5 c cs (by rw [← hr6, hcons])
    · exact absurd h (by simp)

theorem matchLocation_line_props (l : List Char)
    (q : List Char × List Char × List Char × List Char) (h : matchLocation l = some q) :
    l.isEmpty = false ∧ startsGlyph l = false := by
  cases l with
  | nil => exact absurd h (by simp [matchLocation, takeRun])
  | cons c cs =>
    refine ⟨rfl, ?_⟩
    by_contra hg
    have hc : c = '✖' := by
      simp only [startsGlyph] at hg
      simpa using hg
    subst hc
    have h1 : pyIsSpace '✖' = false := by decide
    have h2 : Char.isDigit '✖' = false := by decide
    simp [matchLocation, takeRun, List.dropWhile_cons, List.takeWhile_cons, h1, h2] at h

theorem splitWs2Go_false_first :
    ∀ (cs acc : List Char), ∃ s t2, splitWs2Go false acc cs = (acc.reverse ++ s) :: t2
  | [], acc => ⟨[], [], by simp [splitWs2Go]⟩
  | [c], acc => ⟨[c], [], by simp [splitWs2Go]⟩
  | c :: c2 :: cs2, acc => by
    by_cases hws : (pyIsSpace c && pyIsSpace c2) = true
    · exact ⟨[], splitWs2Go true [] cs2, by simp [splitWs2Go, hws]⟩
    · obtain ⟨s, t2, hrec⟩ := splitWs2Go_false_first (c2 :: cs2) (c :: acc)
      refine ⟨c :: s, t2, ?_⟩
      simp only [splitWs2Go, if_neg hws]
      rw [hrec]
      simp

theorem splitWs2_cons_head (c : Char) (cs : List Char) (hc : pyIsSpace c = false) :
    ∃ s t2, splitWs2 (c :: cs) = (c :: s) :: t2 := by
  cases cs with
  | nil => exact ⟨[], [], by simp [splitWs2, splitWs2Go]⟩
  | cons c2 cs2 =>
    have hws : ¬ ((pyIsSpace c && pyIsSpace c2) = true) := by simp [hc]
    obtain ⟨s, t2, hrec⟩ := splitWs2Go_false_first (c2 :: cs2) [c]
    refine ⟨s, t2, ?_⟩
    show splitWs2Go false [] (c :: c2 :: cs2) = _
    simp only [splitWs2Go, if_neg hws]
    rw [hrec]
    simp

theorem joinSpace_cons_head (p : List Char) (ps : List (List Char)) :
    ∃ m, joinSpace (p :: ps) = p ++ m := by
  cases ps with
  | nil => exact ⟨[], by simp [joinSpace]⟩
  | cons q qs => exact ⟨' ' :: joinSpace (q :: qs), rfl⟩

theorem pyStripList_head_not_space (l : List Char) (x : Char) (xs : List Char)
    (h : pyStripList l = x :: xs) : pyIsSpace x = false := by
  unfold pyStripList at h
  have hsplit : (l.dropWhile pyIsSpace).reverse.takeWhile pyIsSpace ++
      (l.dropWhile pyIsSpace).reverse.dropWhile pyIsSpace = (l.dropWhile pyIsSpace).reverse :=
    List.takeWhile_append_dropWhile _ _
  have hA : l.dropWhile pyIsSpace =
      ((l.dropWhile pyIsSpace).reverse.dropWhile pyIsSpace).reverse ++
        ((l.dropWhile pyIsSpace).reverse.takeWhile pyIsSpace).reverse := by
    have h2 := List.reverse_append
      ((l.dropWhile pyIsSpace).reverse.takeWhile pyIsSpace)
      ((l.dropWhile pyIsSpace).reverse.dropWhile pyIsSpace)
    rw [hsplit, List.reverse_reverse] at h2
    exact h2
  rw [h] at hA
  have hA2 : l.dropWhile pyIsSpace =
      x :: (xs ++ ((l.dropWhile pyIsSpace).reverse.takeWhile pyIsSpace).reverse) := by
    simpa using hA
  exact dropWhile_head_false pyIsSpace l x _ hA2

theorem pyStripList_getLast_not_space (l : List Char) (x : Char) (xs : List Char)
    (h : pyStripList l = x :: xs) :
    ∃ y, (x :: xs).getLast? = some y ∧ pyIsSpace y = false := by
  unfold pyStripList at h
  have hB : (l.dropWhile pyIsSpace).reverse.dropWhile pyIsSpace ≠ [] := by
    intro hnil
    rw [hnil] at h
    simp at h
  obtain ⟨b, bs, hcons⟩ := List.exists_cons_of_ne_nil hB
  refine ⟨b, ?_, dropWhile_head_false pyIsSpace _ b bs hcons⟩
  rw [← h, hcons]
  simp

theorem pyStripList_eq_self (c : Char) (cs : List Char) (y : Char)
    (hc : pyIsSpace c = false) (hy : (c :: cs).getLast? = some y)
    (hys : pyIsSpace y = false) : pyStripList (c :: cs) = c :: cs := by
  unfold pyStripList
  have h1 : (c :: cs).dropWhile pyIsSpace = c :: cs := by
    rw [List.dropWhile_cons]
    simp [hc]
  rw [h1]
  have hrev : (c :: cs).reverse.head? = some y := by
    rw [List.head?_reverse]
    exact hy
  obtain ⟨r, hr⟩ : ∃ r, (c :: cs).reverse = y :: r := by
    cases hcr : (c :: cs).reverse with
    | nil => rw [hcr] at hrev; simp at hrev
    | cons a r =>
      rw [hcr] at hrev
      injection hrev with h2
      exact ⟨r, by rw [h2]⟩
  rw [hr, List.dropWhile_cons]
  simp only [hys, Bool.false_eq_true, if_false]
  rw [← hr, List.reverse_reverse]

theorem pyStripList_ne_nil_of_head (c : Char) (cs : List Char) (hc : pyIsSpace c = false) :
    pyStripList (c :: cs) ≠ [] := by
  unfold pyStripList
  intro h
  have h2 : (c :: cs).dropWhile pyIsSpace = c :: cs := by
    rw [List.dropWhile_cons]
    simp [hc]
  rw [h2] at h
  have h3 : (c :: cs).reverse.dropWhile pyIsSpace = [] := by
    cases hdr : (c :: cs).reverse.dropWhile pyIsSpace with
    | nil => rfl
    | cons a r => rw [hdr] at h; simp at h
  rw [List.dropWhile_eq_nil_iff] at h3
  have := h3 c (by simp)
  rw [hc] at this
  exact Bool.false_ne_true this

theorem pyStripList_append_cont (a : Char) (A B : List Char) (y : Char)
    (ha : pyIsSpace a = false) (hB : B.getLast? = some y) (hy : pyIsSpace y = false) :
    pyStripList (a :: A ++ ' ' :: B) = a :: A ++ ' ' :: B := by
  have hBne : B ≠ [] := by
    intro h
    rw [h] at hB
    simp at hB
  have hlast : (a :: A ++ ' ' :: B).getLast? = some y := by
    rw [List.getLast?_append]
    rw [show (' ' :: B : List Char) = [' '] ++ B from rfl, List.getLast?_append, hB]
    rfl
  have := pyStripList_eq_self a (A ++ ' ' :: B) y ha (by simpa using hlast) hy
  simpa using this

theorem consumeCont_single (cL : List Char) (acc : List Char)
    (h1 : pyStripList cL ≠ [])
    (h2 : startsLocMarker cL = false)
    (h3 : startsGlyph cL = false) :
    consumeCont [cL] acc = (acc ++ ' ' :: pyStripList cL, []) := by
  obtain ⟨c0, cs0, hc⟩ := List.exists_cons_of_ne_nil h1
  have hhead := pyStripList_head_not_space cL c0 cs0 hc
  have hdrop : (pyStripList cL).dropWhile pyIsSpace = pyStripList cL := by
    rw [hc, List.dropWhile_cons]
    simp [hhead]
  have hcond : (!(pyStripList cL).isEmpty && !startsLocMarker cL && !startsGlyph cL) = true := by
    rw [h2, h3, hc]
    rfl
  simp only [consumeCont, hcond, if_true]
  rw [hdrop]
  have hne : (pyStripList cL).isEmpty = false := by
    rw [hc]
    rfl
  simp only [hne, Bool.false_eq_true, if_false]

theorem scanGo_cons_match (fname : Option String) (fuel : Nat) (l : List Char)
    (rest : List (List Char)) (d1 d2 et restStr : List Char)
    (hne : (pyStripList l).isEmpty = false)
    (hg : startsGlyph (pyStripList l) = false)
    (hm : matchLocation (pyStripList l) = some (d1, d2, et, restStr))
    (hp : 2 ≤ (splitWs2 restStr).length) :
    scanGo fname (fuel + 1) (l :: rest) =
      ⟨fname, digitsToNat d1, digitsToNat d2, et.asString,
        (pyStripList
          (consumeCont rest (pyStripList (joinSpace (splitWs2 restStr).dropLast))).1).asString,
        (pyStripList ((splitWs2 restStr).getLastD [])).asString⟩
        :: scanGo fname fuel
            (consumeCont rest (pyStripList (joinSpace (splitWs2 restStr).dropLast))).2 := by
  simp only [scanGo, hne, hg, hm, Bool.or_self, Bool.false_eq_true, if_false, if_pos hp]

/-- Claim C2 (amended): an input whose preprocessed lines are one finding
header followed by one non-blank continuation line (one that neither starts
with a `digits:digits` marker nor with the summary glyph) yields a single
IssueRecord whose message is the header's message, then a single space, then
the trimmed continuation text, and the continuation line is consumed
(producing no record of its own) — provided the header line does not end in a
recognized documentation extension, in which case it would instead be taken
for a filename line and skipped (see the counterexample). -/
theorem claim2_continuation_appended (stdout : String) (fname : Option String)
    (hL cL : List Char) (d1 d2 et restStr : List Char)
    (hlines : valeLines stdout = [hL, cL])
    (hm : matchLocation (pyStripList hL) = some (d1, d2, et, restStr))
    (hp : 2 ≤ (splitWs2 restStr).length)
    (hskip : endsDocExt hL = false)
    (hassign : endsDocExt (pyStripList hL) = false)
    (hc1 : pyStripList cL ≠ [])
    (hc2 : startsLocMarker cL = false)
    (hc3 : startsGlyph cL = false) :
    parse_vale_output stdout fname =
      [⟨fname, digitsToNat d1, digitsToNat d2, et.asString,
        (pyStripList (joinSpace (splitWs2 restStr).dropLast) ++ ' ' :: pyStripList cL).asString,
        (pyStripList ((splitWs2 restStr).getLastD [])).asString⟩] := by
  have hres : resolveFilename fname (valeLines stdout) = fname := by
    rw [hlines]
    simp [resolveFilename, hassign]
  have hstart : startLines (valeLines stdout) = [hL, cL] := by
    rw [hlines]
    simp [startLines, hskip]
  have hprops := matchLocation_line_props (pyStripList hL) _ hm
  obtain ⟨c, cs, hrest, hcws⟩ := matchLocation_rest_head _ _ _ _ _ hm
  obtain ⟨s, t2, hsplit2⟩ := splitWs2_cons_head c cs hcws
  have hparts : splitWs2 restStr = (c :: s) :: t2 := by rw [hrest]; exact hsplit2
  have ht2 : t2 ≠ [] := by
    intro h0
    rw [hparts, h0] at hp
    simp at hp
  obtain ⟨q, qs, hq⟩ := List.exists_cons_of_ne_nil ht2
  have hdrop : (splitWs2 restStr).dropLast = (c :: s) :: ((q :: qs).dropLast) := by
    rw [hparts, hq]
    rfl
  obtain ⟨m, hjoin⟩ := joinSpace_cons_head (c :: s) ((q :: qs).dropLast)
  have hjoin2 : joinSpace ((splitWs2 restStr).dropLast) = c :: (s ++ m) := by
    rw [hdrop, hjoin]
    simp
  have haccne : pyStripList (joinSpace ((splitWs2 restStr).dropLast)) ≠ [] := by
    rw [hjoin2]
    exact pyStripList_ne_nil_of_head c (s ++ m) hcws
  obtain ⟨a, A, hacc⟩ := List.exists_cons_of_ne_nil haccne
  have haws : pyIsSpace a = false := pyStripList_head_not_space _ a A hacc
  obtain ⟨c0, cs0, hcl⟩ := List.exists_cons_of_ne_nil hc1
  obtain ⟨y, hy, hyws⟩ := pyStripList_getLast_not_space cL c0 cs0 hcl
  have hfinal : pyStripList (pyStripList (joinSpace ((splitWs2 restStr).dropLast)) ++
      ' ' :: pyStripList cL) =
      pyStripList (joinSpace ((splitWs2 restStr).dropLast)) ++ ' ' :: pyStripList cL := by
    rw [hacc]
    exact pyStripList_append_cont a A (pyStripList cL) y haws (by rw [hcl]; exact hy) hyws
  have hcons := consumeCont_single cL
    (pyStripList (joinSpace ((splitWs2 restStr).dropLast))) hc1 hc2 hc3
  have hcons1 : (consumeCont [cL] (pyStripList (joinSpace ((splitWs2 restStr).dropLast)))).1 =
      pyStripList (joinSpace ((splitWs2 restStr).dropLast)) ++ ' ' :: pyStripList cL := by
    rw [hcons]
  have hcons2 : (consumeCont [cL] (pyStripList (joinSpace ((splitWs2 restStr).dropLast)))).2 =
      ([] : List (List Char)) := by
    rw [hcons]
  show scanGo (resolveFilename fname (valeLines stdout)) (startLines (valeLines stdout)).length
    (startLines (valeLines stdout)) = _
  rw [hres, hstart]
  show scanGo fname (1 + 1) [hL, cL] = _
  rw [scanGo_cons_match fname 1 hL [cL] d1 d2 et restStr hprops.1 hprops.2 hm hp]
  rw [hcons1, hcons2, hfinal]
  rfl

/-- Counterexample to claim C2 as stated (for *every* header/continuation
input): here the header line is a perfectly parseable finding header (first
two conjuncts) and the continuation is non-blank with leading whitespace
(next three conjuncts), yet the parser returns no record at all, because the
header line ends in `.md` and is consumed as the filename line. -/
theorem claim2_cex_doc_extension_header :
    matchLocation (pyStripList "3:10  error  Bad  A.md".data) ≠ none ∧
    2 ≤ (splitWs2 "Bad  A.md".data).length ∧
    pyStripList "  cont text".data ≠ [] ∧
    startsLocMarker "  cont text".data = false ∧
    startsGlyph "  cont text".data = false ∧
    parse_vale_output "3:10  error  Bad  A.md\n  cont text" none = [] :=
  ⟨by decide, by decide, by decide, by decide, by decide, by decide⟩

/-- Witness for `claim2_continuation_appended` at a concrete two-line input. -/
theorem claim2_continuation_appended_witness :
    parse_vale_output "3:10  error  First part  R1\n  more text" none =
      [⟨none, 3, 10, "error", "First part more text", "R1"⟩] := by
  have h := claim2_continuation_appended "3:10  error  First part  R1\n  more text" none
    "3:10  error  First part  R1".data "  more text".data
    ['3'] ['1', '0'] "error".data "First part  R1".data
    (by decide) (by decide) (by decide) (by decide) (by decide)
    (by decide) (by decide) (by decide)
  exact h.trans (by decide)
